import Mathlib

/-!
Verification of the smart-wardrobe recognition pipeline and image lifecycle.

This file gives a shallow embedding, in Lean 4, of the core logic of the
repository's backend:

* `backend/api/v1/helpers/recognition.py` — the `RecognitionResult` record,
  the payload mapper `_map_payload_to_result` and the multi-image aggregator
  `_aggregate_recognition_results`;
* `backend/api/v1/helpers/upload.py` — the validated, size-bounded streaming
  upload `handle_file_upload`;
* `backend/api/v1/item_recognition.py` — the recognize-and-create
  orchestrator with its compensation logic;
* `backend/api/v1/item_image.py` and `backend/crud/item_image.py` — the
  image CRUD operations and the primary-image invariant enforcer.

Python floats are modelled as rationals; Python `set(...)` (whose iteration
order is implementation-defined but fixed for a fixed input within a process)
is modelled by the deterministic duplicate-removal `List.dedup`; Python's
truthiness tests (`if r.category`, `if r.season`, ...) are modelled
explicitly (an empty string and an empty list are falsy).  Machine I/O
(the database session, the filesystem) is modelled by explicit state passing.
-/

namespace SmartWardrobe

/-- Python truthiness for an optional string: `None` and `""` are falsy.
Models `if s:` where `s : str | None`. -/
def truthyStr : Option String → Option String
  | none => none
  | some s => if s = "" then none else some s

/-- `RecognitionResult` from `helpers/recognition.py`: the transient record
produced by a recognition backend.  List-valued fields are stored already
defaulted to `[]` (the constructor does `color_palette or []` etc.), and
`confidence : float` is modelled as a rational. -/
structure RecognitionResult where
  category : Option String := none
  name : Option String := none
  brand : Option String := none
  material : Option String := none
  pattern : Option String := none
  dominant_color : Option String := none
  color_palette : List String := []
  season : List String := []
  occasion : List String := []
  confidence : ℚ := 0
deriving Repr, DecidableEq

/-- A decoded JSON payload from the external recognition backend: every key
is optional (`payload.get(key)` yields `None` when absent). -/
structure Payload where
  category : Option String := none
  name : Option String := none
  brand : Option String := none
  material : Option String := none
  pattern : Option String := none
  dominant_color : Option String := none
  color_palette : Option (List String) := none
  season : Option (List String) := none
  occasion : Option (List String) := none
  confidence : Option ℚ := none
deriving Repr, DecidableEq

/-- Python `x or []` for an optional list: `None` and `[]` are falsy. -/
def pyOrList (o : Option (List String)) : List String :=
  match o with
  | none => []
  | some l => if l = [] then [] else l

/-- Python `float(x or 0.0)` for an optional number: `None` and `0` are falsy. -/
def pyOrQ (o : Option ℚ) : ℚ :=
  match o with
  | none => 0
  | some c => if c = 0 then 0 else c

/-- `_map_payload_to_result` from `helpers/recognition.py`: copies each field,
replacing a falsy `color_palette`/`season`/`occasion` by `[]`
(`payload.get(...) or []`) and a falsy confidence by `0.0`
(`float(payload.get("confidence") or 0.0)`). -/
def _map_payload_to_result (p : Payload) : RecognitionResult where
  category := p.category
  name := p.name
  brand := p.brand
  material := p.material
  pattern := p.pattern
  dominant_color := p.dominant_color
  color_palette := pyOrList p.color_palette
  season := pyOrList p.season
  occasion := pyOrList p.occasion
  confidence := pyOrQ p.confidence

/-- Python's `max(xs, key=key)` on a non-empty list: scans left to right and
keeps the current element unless a later one has a strictly greater key, so
ties go to the first-encountered maximum. -/
def pyMaxBy (key : String → Nat) (x : String) (xs : List String) : String :=
  xs.foldl (fun b a => if key b < key a then a else b) x

/-- The non-null (truthy) categories of a result list:
`[r.category for r in results if r.category]`. -/
def categoriesOf (results : List RecognitionResult) : List String :=
  results.filterMap (fun r => truthyStr r.category)

/-- `[r.name for r in results if r.name]`. -/
def namesOf (results : List RecognitionResult) : List String :=
  results.filterMap (fun r => truthyStr r.name)

/-- `[r.pattern for r in results if r.pattern]`. -/
def patternsOf (results : List RecognitionResult) : List String :=
  results.filterMap (fun r => truthyStr r.pattern)

/-- `max(set(vals), key=vals.count) if vals else None`, modelling the set's
iteration order by `List.dedup`. -/
def voteBest (vals : List String) : Option String :=
  match vals.dedup with
  | [] => none
  | x :: xs => some (pyMaxBy (fun v => vals.count v) x xs)

/-- The combined colour list of `_aggregate_recognition_results`: for each
result, its truthy `dominant_color` followed by its `color_palette`
(extending by an empty palette is a no-op, so the `if r.color_palette:`
guard is absorbed). -/
def allColorsOf (results : List RecognitionResult) : List String :=
  results.foldr
    (fun r acc =>
      (match truthyStr r.dominant_color with | some c => [c] | none => []) ++
        r.color_palette ++ acc)
    []

/-- All seasons, concatenated across results (`all_seasons.extend(r.season)`;
the `if r.season:` guard is a no-op for empty lists). -/
def allSeasonsOf (results : List RecognitionResult) : List String :=
  results.foldr (fun r acc => r.season ++ acc) []

/-- All occasions, concatenated across results. -/
def allOccasionsOf (results : List RecognitionResult) : List String :=
  results.foldr (fun r acc => r.occasion ++ acc) []

/-- The strictly-positive confidences:
`[r.confidence for r in results if r.confidence > 0]`. -/
def positiveConfidencesOf (results : List RecognitionResult) : List ℚ :=
  (results.map RecognitionResult.confidence).filter (fun c => 0 < c)

/-- The record built by `_aggregate_recognition_results` once the non-empty
guard has passed: votes per field, merges colour/season/occasion lists
through a set, and averages the strictly-positive confidences. -/
def aggCore (results : List RecognitionResult) : RecognitionResult :=
  let all_brands := results.filterMap (fun r => truthyStr r.brand)
  let all_materials := results.filterMap (fun r => truthyStr r.material)
  let all_colors := allColorsOf results
  let confidences := positiveConfidencesOf results
  { category := voteBest (categoriesOf results)
    name := voteBest (namesOf results)
    brand := all_brands.head?
    material := all_materials.head?
    pattern := voteBest (patternsOf results)
    dominant_color := all_colors.head?
    color_palette := (all_colors.dedup).take 5
    season := (allSeasonsOf results).dedup
    occasion := (allOccasionsOf results).dedup
    confidence :=
      if confidences = [] then 0
      else confidences.sum / (confidences.length : ℚ) }

/-- `_aggregate_recognition_results` from `helpers/recognition.py`.  Raises
`ValueError` (modelled as `Except.error`) on an empty input. -/
def _aggregate_recognition_results (results : List RecognitionResult) :
    Except String RecognitionResult :=
  if results = [] then .error "Список результатов пуст"
  else .ok (aggCore results)

theorem aggregate_ok_inv {results : List RecognitionResult} {res : RecognitionResult}
    (h : _aggregate_recognition_results results = .ok res) :
    results ≠ [] ∧ res = aggCore results := by
  unfold _aggregate_recognition_results at h
  split at h
  · exact absurd h (by simp)
  · refine ⟨by assumption, ?_⟩
    injection h with h
    exact h.symm

theorem pyMaxBy_mem (key : String → Nat) (x : String) (xs : List String) :
    pyMaxBy key x xs ∈ x :: xs := by
  induction xs generalizing x with
  | nil => simp [pyMaxBy]
  | cons a as ih =>
    have hstep : pyMaxBy key x (a :: as) = pyMaxBy key (if key x < key a then a else x) as := rfl
    rw [hstep]
    have h := ih (if key x < key a then a else x)
    rcases List.mem_cons.mp h with h1 | h1
    · rw [h1]
      split <;> simp
    · exact List.mem_cons.mpr (Or.inr (List.mem_cons.mpr (Or.inr h1)))

theorem pyMaxBy_le (key : String → Nat) (x : String) (xs : List String) :
    ∀ y ∈ x :: xs, key y ≤ key (pyMaxBy key x xs) := by
  induction xs generalizing x with
  | nil =>
    intro y hy
    simp only [List.mem_singleton] at hy
    simp [pyMaxBy, hy]
  | cons a as ih =>
    intro y hy
    have hstep : pyMaxBy key x (a :: as) = pyMaxBy key (if key x < key a then a else x) as := rfl
    rw [hstep]
    have hself := ih (if key x < key a then a else x) _ (List.mem_cons_self _ _)
    rcases List.mem_cons.mp hy with h1 | h1
    · have hx : key x ≤ key (if key x < key a then a else x) := by split <;> omega
      calc key y = key x := by rw [h1]
        _ ≤ _ := le_trans hx hself
    · rcases List.mem_cons.mp h1 with h2 | h2
      · have ha : key a ≤ key (if key x < key a then a else x) := by split <;> omega
        calc key y = key a := by rw [h2]
          _ ≤ _ := le_trans ha hself
      · exact ih _ y (List.mem_cons.mpr (Or.inr h2))

theorem voteBest_mem {vals : List String} {c : String} (h : voteBest vals = some c) :
    c ∈ vals := by
  unfold voteBest at h
  split at h
  · exact absurd h (by simp)
  · rename_i x xs hd
    injection h with h
    have hmem := pyMaxBy_mem (fun v => vals.count v) x xs
    rw [h] at hmem
    have : c ∈ vals.dedup := hd ▸ hmem
    exact List.mem_dedup.mp this

theorem voteBest_count_le {vals : List String} {c : String} (h : voteBest vals = some c) :
    ∀ v ∈ vals, vals.count v ≤ vals.count c := by
  intro v hv
  unfold voteBest at h
  split at h
  · rename_i hd
    have : vals = [] := (List.dedup_eq_nil vals).mp hd
    simp [this] at hv
  · rename_i x xs hd
    injection h with h
    have hv' : v ∈ vals.dedup := List.mem_dedup.mpr hv
    rw [hd] at hv'
    have := pyMaxBy_le (fun w => vals.count w) x xs v hv'
    rw [h] at this
    exact this

theorem truthyStr_eq_some {s : Option String} {c : String} (h : truthyStr s = some c) :
    s = some c := by
  cases s with
  | none => simp [truthyStr] at h
  | some v =>
    simp only [truthyStr] at h
    split at h
    · exact absurd h (by simp)
    · rw [h]

theorem pyOrList_eq_getD (o : Option (List String)) : pyOrList o = o.getD [] := by
  cases o with
  | none => rfl
  | some l =>
    simp only [pyOrList, Option.getD_some]
    split
    · exact Eq.symm (by assumption)
    · rfl

theorem pyOrQ_eq_getD (o : Option ℚ) : pyOrQ o = o.getD 0 := by
  cases o with
  | none => rfl
  | some c =>
    simp only [pyOrQ, Option.getD_some]
    split
    · exact Eq.symm (by assumption)
    · rfl

theorem mem_foldr_append (f : RecognitionResult → List String)
    (results : List RecognitionResult) (s : String) :
    s ∈ results.foldr (fun r acc => f r ++ acc) [] ↔ ∃ r ∈ results, s ∈ f r := by
  induction results with
  | nil => simp
  | cons r rs ih =>
    simp only [List.foldr_cons, List.mem_append, ih, List.mem_cons]
    constructor
    · rintro (h | ⟨q, hq, hs⟩)
      · exact ⟨r, Or.inl rfl, h⟩
      · exact ⟨q, Or.inr hq, hs⟩
    · rintro ⟨q, rfl | hq, hs⟩
      · exact Or.inl hs
      · exact Or.inr ⟨q, hq, hs⟩

theorem mem_allSeasonsOf {results : List RecognitionResult} {s : String} :
    s ∈ allSeasonsOf results ↔ ∃ r ∈ results, s ∈ r.season :=
  mem_foldr_append RecognitionResult.season results s

theorem mem_allOccasionsOf {results : List RecognitionResult} {s : String} :
    s ∈ allOccasionsOf results ↔ ∃ r ∈ results, s ∈ r.occasion :=
  mem_foldr_append RecognitionResult.occasion results s

theorem mem_allColorsOf {results : List RecognitionResult} {c : String} :
    c ∈ allColorsOf results ↔
      ∃ r ∈ results, truthyStr r.dominant_color = some c ∨ c ∈ r.color_palette := by
  induction results with
  | nil => simp [allColorsOf]
  | cons r rs ih =>
    have hstep : allColorsOf (r :: rs) =
        ((match truthyStr r.dominant_color with | some c0 => [c0] | none => []) ++
          r.color_palette) ++ allColorsOf rs := rfl
    rw [hstep]
    constructor
    · intro hmem
      rcases List.mem_append.mp hmem with hmem | hmem
      · rcases List.mem_append.mp hmem with hmem | hmem
        · refine ⟨r, List.mem_cons_self _ _, Or.inl ?_⟩
          rcases hd : truthyStr r.dominant_color with _ | c0 <;> rw [hd] at hmem
          · simp at hmem
          · simp only [List.mem_singleton] at hmem
            rw [hmem]
        · exact ⟨r, List.mem_cons_self _ _, Or.inr hmem⟩
      · obtain ⟨q, hq, hcs⟩ := ih.mp hmem
        exact ⟨q, List.mem_cons.mpr (Or.inr hq), hcs⟩
    · rintro ⟨q, hq, hcs⟩
      rcases List.mem_cons.mp hq with rfl | hq
      · rcases hcs with hd | hp
        · refine List.mem_append.mpr (Or.inl (List.mem_append.mpr (Or.inl ?_)))
          rw [hd]
          exact List.mem_singleton.mpr rfl
        · exact List.mem_append.mpr (Or.inl (List.mem_append.mpr (Or.inr hp)))
      · exact List.mem_append.mpr (Or.inr (ih.mpr ⟨q, hq, hcs⟩))

theorem mem_positiveConfidencesOf {results : List RecognitionResult} {c : ℚ} :
    c ∈ positiveConfidencesOf results ↔
      (∃ r ∈ results, r.confidence = c) ∧ 0 < c := by
  simp [positiveConfidencesOf, List.mem_filter, List.mem_map, and_comm]

theorem aggCore_category (results : List RecognitionResult) :
    (aggCore results).category = voteBest (categoriesOf results) := rfl

theorem aggCore_name (results : List RecognitionResult) :
    (aggCore results).name = voteBest (namesOf results) := rfl

theorem aggCore_pattern (results : List RecognitionResult) :
    (aggCore results).pattern = voteBest (patternsOf results) := rfl

theorem aggCore_color_palette (results : List RecognitionResult) :
    (aggCore results).color_palette = ((allColorsOf results).dedup).take 5 := rfl

theorem aggCore_season (results : List RecognitionResult) :
    (aggCore results).season = (allSeasonsOf results).dedup := rfl

theorem aggCore_occasion (results : List RecognitionResult) :
    (aggCore results).occasion = (allOccasionsOf results).dedup := rfl

theorem aggCore_confidence (results : List RecognitionResult) :
    (aggCore results).confidence =
      if positiveConfidencesOf results = [] then 0
      else (positiveConfidencesOf results).sum /
        ((positiveConfidencesOf results).length : ℚ) := rfl

theorem aggregate_ok {results : List RecognitionResult} (hne : results ≠ []) :
    _aggregate_recognition_results results = .ok (aggCore results) := by
  unfold _aggregate_recognition_results
  rw [if_neg hne]

theorem voteBest_single (s : String) : voteBest [s] = some s := by
  have h : ([s] : List String).dedup = [s] := by simp
  unfold voteBest
  rw [h]
  rfl

theorem voteBest_truthy_single (o : Option String) (h : o ≠ some "") :
    voteBest (List.filterMap truthyStr [o]) = o := by
  rcases o with _ | s
  · rfl
  · have hs : s ≠ "" := fun he => h (by rw [he])
    have h1 : List.filterMap truthyStr [some s] = [s] := by
      simp [truthyStr, hs]
    rw [h1, voteBest_single]

/-- Sample results used to witness the aggregation claims. -/
def rA : RecognitionResult :=
  { category := some "shirt", name := some "Shirt", pattern := some "solid",
    dominant_color := some "#808080", color_palette := ["#808080"],
    season := ["spring", "summer"], occasion := ["casual"], confidence := 1 }

/-- A second sample result with a different category. -/
def rB : RecognitionResult :=
  { category := some "dress", name := some "Shirt", pattern := some "solid",
    dominant_color := some "#FFCC00", color_palette := ["#000000"],
    season := ["winter"], occasion := ["work"], confidence := 0 }

/-- C3: for results produced by an aggregation run, the aggregate confidence
is 0 when no input confidence is strictly positive and otherwise the
arithmetic mean of the strictly-positive confidences; when every input
confidence lies in [0,1] (the data-model invariant), the aggregate
confidence lies in [0,1]. -/
theorem aggregate_confidence_mean_and_range
    (results : List RecognitionResult) (res : RecognitionResult)
    (hrange : ∀ r ∈ results, 0 ≤ r.confidence ∧ r.confidence ≤ 1)
    (h : _aggregate_recognition_results results = .ok res) :
    (positiveConfidencesOf results = [] → res.confidence = 0) ∧
    (positiveConfidencesOf results ≠ [] →
      res.confidence * ((positiveConfidencesOf results).length : ℚ) =
        (positiveConfidencesOf results).sum) ∧
    0 ≤ res.confidence ∧ res.confidence ≤ 1 := by
  obtain ⟨hne, rfl⟩ := aggregate_ok_inv h
  by_cases hl : positiveConfidencesOf results = []
  · rw [aggCore_confidence, if_pos hl]
    exact ⟨fun _ => rfl, fun hc => absurd hl hc, le_refl 0, by norm_num⟩
  · rw [aggCore_confidence, if_neg hl]
    have hmem : ∀ x ∈ positiveConfidencesOf results, 0 < x ∧ x ≤ 1 := by
      intro x hx
      obtain ⟨⟨r, hr, hrc⟩, hpos⟩ := mem_positiveConfidencesOf.mp hx
      exact ⟨hpos, hrc ▸ (hrange r hr).2⟩
    have hlenpos : 0 < ((positiveConfidencesOf results).length : ℚ) := by
      have h1 := List.length_pos.mpr hl
      exact_mod_cast h1
    have hsum0 : 0 ≤ (positiveConfidencesOf results).sum :=
      List.sum_nonneg (fun x hx => le_of_lt (hmem x hx).1)
    have hsumle : (positiveConfidencesOf results).sum ≤
        ((positiveConfidencesOf results).length : ℚ) := by
      have h1 := List.sum_le_card_nsmul (positiveConfidencesOf results) 1
        (fun x hx => (hmem x hx).2)
      simpa using h1
    exact ⟨fun hc => absurd hc hl,
      fun _ => div_mul_cancel₀ _ (ne_of_gt hlenpos),
      div_nonneg hsum0 (le_of_lt hlenpos),
      (div_le_one hlenpos).mpr hsumle⟩

/-- Witness for C3 at a concrete two-element result list. -/
theorem aggregate_confidence_mean_and_range_witness :
    (positiveConfidencesOf [rA, rB] = [] → (aggCore [rA, rB]).confidence = 0) ∧
    (positiveConfidencesOf [rA, rB] ≠ [] →
      (aggCore [rA, rB]).confidence * ((positiveConfidencesOf [rA, rB]).length : ℚ) =
        (positiveConfidencesOf [rA, rB]).sum) ∧
    0 ≤ (aggCore [rA, rB]).confidence ∧ (aggCore [rA, rB]).confidence ≤ 1 :=
  aggregate_confidence_mean_and_range [rA, rB] (aggCore [rA, rB]) (by decide)
    (aggregate_ok (by decide))

/-- C5: the aggregate palette has length at most 5 and every entry is some
input's dominant colour or an entry of some input's palette; the aggregate
season and occasion are exactly the deduplicated unions of the inputs'
corresponding fields. -/
theorem aggregate_palette_season_occasion
    (results : List RecognitionResult) (res : RecognitionResult)
    (h : _aggregate_recognition_results results = .ok res) :
    res.color_palette.length ≤ 5 ∧
    (∀ c ∈ res.color_palette,
      ∃ r ∈ results, r.dominant_color = some c ∨ c ∈ r.color_palette) ∧
    res.season.Nodup ∧ (∀ s, s ∈ res.season ↔ ∃ r ∈ results, s ∈ r.season) ∧
    res.occasion.Nodup ∧ (∀ s, s ∈ res.occasion ↔ ∃ r ∈ results, s ∈ r.occasion) := by
  obtain ⟨hne, rfl⟩ := aggregate_ok_inv h
  refine ⟨?_, ?_, ?_, ?_, ?_, ?_⟩
  · rw [aggCore_color_palette, List.length_take]
    exact min_le_left _ _
  · intro c hc
    rw [aggCore_color_palette] at hc
    have hc2 : c ∈ (allColorsOf results).dedup := List.take_subset _ _ hc
    obtain ⟨r, hr, hcase⟩ := mem_allColorsOf.mp (List.mem_dedup.mp hc2)
    exact ⟨r, hr, hcase.imp truthyStr_eq_some id⟩
  · rw [aggCore_season]
    exact List.nodup_dedup _
  · intro s
    rw [aggCore_season, List.mem_dedup]
    exact mem_allSeasonsOf
  · rw [aggCore_occasion]
    exact List.nodup_dedup _
  · intro s
    rw [aggCore_occasion, List.mem_dedup]
    exact mem_allOccasionsOf

/-- Witness for C5 at a concrete two-element result list. -/
theorem aggregate_palette_season_occasion_witness :
    (aggCore [rA, rB]).color_palette.length ≤ 5 ∧
    (∀ c ∈ (aggCore [rA, rB]).color_palette,
      ∃ r ∈ [rA, rB], r.dominant_color = some c ∨ c ∈ r.color_palette) ∧
    (aggCore [rA, rB]).season.Nodup ∧
    (∀ s, s ∈ (aggCore [rA, rB]).season ↔ ∃ r ∈ [rA, rB], s ∈ r.season) ∧
    (aggCore [rA, rB]).occasion.Nodup ∧
    (∀ s, s ∈ (aggCore [rA, rB]).occasion ↔ ∃ r ∈ [rA, rB], s ∈ r.occasion) :=
  aggregate_palette_season_occasion [rA, rB] (aggCore [rA, rB]) (aggregate_ok (by decide))

/-- C7: the plurality vote for category (likewise name and pattern) selects a
non-null value occurring in the inputs whose multiplicity is maximal, and a
second aggregation run on the same input list yields the same result. -/
theorem aggregate_vote_plurality
    (results : List RecognitionResult) (res : RecognitionResult)
    (h : _aggregate_recognition_results results = .ok res) :
    (∀ c, res.category = some c → c ∈ categoriesOf results ∧
      ∀ v ∈ categoriesOf results,
        (categoriesOf results).count v ≤ (categoriesOf results).count c) ∧
    (∀ c, res.name = some c → c ∈ namesOf results ∧
      ∀ v ∈ namesOf results, (namesOf results).count v ≤ (namesOf results).count c) ∧
    (∀ c, res.pattern = some c → c ∈ patternsOf results ∧
      ∀ v ∈ patternsOf results,
        (patternsOf results).count v ≤ (patternsOf results).count c) ∧
    (∀ results2, results2 = results →
      _aggregate_recognition_results results2 = .ok res) := by
  obtain ⟨hne, rfl⟩ := aggregate_ok_inv h
  refine ⟨?_, ?_, ?_, ?_⟩
  · intro c hc
    rw [aggCore_category] at hc
    exact ⟨voteBest_mem hc, voteBest_count_le hc⟩
  · intro c hc
    rw [aggCore_name] at hc
    exact ⟨voteBest_mem hc, voteBest_count_le hc⟩
  · intro c hc
    rw [aggCore_pattern] at hc
    exact ⟨voteBest_mem hc, voteBest_count_le hc⟩
  · intro results2 h2
    rw [h2]
    exact aggregate_ok hne

/-- Witness for C7 at a concrete two-element result list. -/
theorem aggregate_vote_plurality_witness :
    (∀ c, (aggCore [rA, rB]).category = some c → c ∈ categoriesOf [rA, rB] ∧
      ∀ v ∈ categoriesOf [rA, rB],
        (categoriesOf [rA, rB]).count v ≤ (categoriesOf [rA, rB]).count c) ∧
    (∀ c, (aggCore [rA, rB]).name = some c → c ∈ namesOf [rA, rB] ∧
      ∀ v ∈ namesOf [rA, rB],
        (namesOf [rA, rB]).count v ≤ (namesOf [rA, rB]).count c) ∧
    (∀ c, (aggCore [rA, rB]).pattern = some c → c ∈ patternsOf [rA, rB] ∧
      ∀ v ∈ patternsOf [rA, rB],
        (patternsOf [rA, rB]).count v ≤ (patternsOf [rA, rB]).count c) ∧
    (∀ results2, results2 = [rA, rB] →
      _aggregate_recognition_results results2 = .ok (aggCore [rA, rB])) :=
  aggregate_vote_plurality [rA, rB] (aggCore [rA, rB]) (aggregate_ok (by decide))

/-- A singleton result whose category is the empty string. -/
def emptyCategorySingleton : RecognitionResult := { category := some "", confidence := 1 }

/-- C8 as stated fails on the code: `_aggregate_recognition_results` filters
categories through Python truthiness (`if r.category`), so a singleton whose
category is the empty string aggregates to category `None`, not to the
element's category unchanged. -/
theorem aggregate_singleton_counterexample :
    ¬ ((_aggregate_recognition_results [emptyCategorySingleton]).toOption.map
        RecognitionResult.category = some emptyCategorySingleton.category) := by
  decide

/-- C8 amended: aggregating a singleton returns the element's category, name
and pattern unchanged provided none of them is the falsy empty string, and a
confidence equal to the element's confidence when strictly positive, else 0. -/
theorem aggregate_singleton (r : RecognitionResult)
    (hc : r.category ≠ some "") (hn : r.name ≠ some "") (hp : r.pattern ≠ some "") :
    _aggregate_recognition_results [r] = .ok (aggCore [r]) ∧
    (aggCore [r]).category = r.category ∧
    (aggCore [r]).name = r.name ∧
    (aggCore [r]).pattern = r.pattern ∧
    (aggCore [r]).confidence = if 0 < r.confidence then r.confidence else 0 := by
  refine ⟨aggregate_ok (by simp), ?_, ?_, ?_, ?_⟩
  · rw [aggCore_category]
    have h1 : categoriesOf [r] = List.filterMap truthyStr [r.category] := rfl
    rw [h1]
    exact voteBest_truthy_single _ hc
  · rw [aggCore_name]
    have h1 : namesOf [r] = List.filterMap truthyStr [r.name] := rfl
    rw [h1]
    exact voteBest_truthy_single _ hn
  · rw [aggCore_pattern]
    have h1 : patternsOf [r] = List.filterMap truthyStr [r.pattern] := rfl
    rw [h1]
    exact voteBest_truthy_single _ hp
  · rw [aggCore_confidence]
    by_cases hrc : (0:ℚ) < r.confidence
    · have h1 : positiveConfidencesOf [r] = [r.confidence] := by
        simp [positiveConfidencesOf, hrc]
      rw [h1]
      simp [hrc]
    · have h1 : positiveConfidencesOf [r] = [] := by
        simp [positiveConfidencesOf, hrc]
      rw [h1]
      simp [hrc]

/-- Witness for the amended C8 at a concrete result. -/
theorem aggregate_singleton_witness :
    _aggregate_recognition_results [rA] = .ok (aggCore [rA]) ∧
    (aggCore [rA]).category = rA.category ∧
    (aggCore [rA]).name = rA.name ∧
    (aggCore [rA]).pattern = rA.pattern ∧
    (aggCore [rA]).confidence = if 0 < rA.confidence then rA.confidence else 0 :=
  aggregate_singleton rA (by decide) (by decide) (by decide)

/-- C9: the payload mapper copies every present field 1:1, defaults missing
fields to their type's empty value with confidence defaulting to 0, and in
particular a payload with only category `"jacket"` and confidence `0.92`
yields category `"jacket"`, confidence `0.92` and all other fields empty. -/
theorem map_payload_to_result_spec (p : Payload) :
    _map_payload_to_result p =
      { category := p.category, name := p.name, brand := p.brand,
        material := p.material, pattern := p.pattern,
        dominant_color := p.dominant_color,
        color_palette := p.color_palette.getD [],
        season := p.season.getD [], occasion := p.occasion.getD [],
        confidence := p.confidence.getD 0 } ∧
    _map_payload_to_result { category := some "jacket", confidence := some (92/100) } =
      { category := some "jacket", confidence := 92/100 } := by
  constructor
  · simp only [_map_payload_to_result, pyOrList_eq_getD, pyOrQ_eq_getD]
  · have h92 : ((92:ℚ)/100) ≠ 0 := by norm_num
    simp [_map_payload_to_result, pyOrQ, pyOrList, h92]

/-- An uploaded file as seen by `handle_file_upload` in `helpers/upload.py`:
its declared content type, the first bytes read for the magic-byte check, and
the sizes of the successive 64 KiB `file.read` chunks (a zero-length read
means end of stream in the `while content := await file.read(...)` loop). -/
structure UFile where
  content_type : Option String
  headBytes : List Nat
  chunks : List Nat
deriving Repr, DecidableEq

/-- The magic-byte sniffing of `handle_file_upload`: JPEG `FF D8 FF`, PNG
`89 50 4E 47`, WebP `RIFF` (the extra `WEBP`-marker check only confirms the
same `image/webp` value, so it is absorbed). -/
def detectType (b : List Nat) : Option String :=
  if List.isPrefixOf [0xff, 0xd8, 0xff] b then some "image/jpeg"
  else if List.isPrefixOf [0x89, 0x50, 0x4e, 0x47] b then some "image/png"
  else if List.isPrefixOf [0x52, 0x49, 0x46, 0x46] b then some "image/webp"
  else none

/-- The streaming write loop of `handle_file_upload`: accumulates the total
size chunk by chunk and fails with HTTP 413 as soon as the accumulated total
exceeds `max_size`; a zero-length read ends the stream. -/
def writeLoop (max_size : Nat) : Nat → List Nat → Except Nat Nat
  | total, [] => .ok total
  | total, c :: cs =>
    if c = 0 then .ok total
    else if max_size < total + c then .error 413
    else writeLoop max_size (total + c) cs

/-- Runs the write loop over a fresh file and reports whether a file remains
on storage: the partial file is unlinked in every failure path. -/
def streamToDisk (max_size : Nat) (chunks : List Nat) : Except Nat Nat × Bool :=
  match writeLoop max_size 0 chunks with
  | .ok total => (.ok total, true)
  | .error code => (.error code, false)

/-- `handle_file_upload` from `helpers/upload.py`: rejects a falsy or
unsupported declared content type (HTTP 400), rejects a sniffed type that
both differs from the declared one and is itself unsupported (HTTP 400), and
otherwise streams the file to disk under the size bound.  The second
component tells whether a file remains on storage afterwards. -/
def handle_file_upload (supported_types : List String) (max_size : Nat)
    (f : UFile) : Except Nat Nat × Bool :=
  match f.content_type with
  | none => (.error 400, false)
  | some ct =>
    if ct = "" ∨ ct ∉ supported_types then (.error 400, false)
    else
      match detectType f.headBytes with
      | some dt =>
        if dt ≠ ct ∧ dt ∉ supported_types then (.error 400, false)
        else streamToDisk max_size f.chunks
      | none => streamToDisk max_size f.chunks

theorem writeLoop_exceeds (max_size : Nat) (chunks : List Nat) (total : Nat)
    (hpos : ∀ c ∈ chunks, 0 < c) (hle : total ≤ max_size)
    (hbig : max_size < total + chunks.sum) :
    writeLoop max_size total chunks = .error 413 := by
  induction chunks generalizing total with
  | nil =>
    simp only [List.sum_nil] at hbig
    omega
  | cons c cs ih =>
    have hc : 0 < c := hpos c (List.mem_cons_self _ _)
    unfold writeLoop
    rw [if_neg (by omega)]
    by_cases hover : max_size < total + c
    · rw [if_pos hover]
    · rw [if_neg hover]
      refine ih (total + c) (fun x hx => hpos x (List.mem_cons.mpr (Or.inr hx))) (by omega) ?_
      have hsum : (c :: cs).sum = c + cs.sum := by simp
      omega

/-- C6: when an upload passes the content-type and magic-byte checks but its
true streamed size exceeds the configured maximum, `handle_file_upload`
fails with HTTP 413 (PayloadTooLarge) and no file remains on storage. -/
theorem handle_file_upload_size_exceeded
    (supported_types : List String) (max_size : Nat) (f : UFile) (ct : String)
    (hct : f.content_type = some ct) (hne : ct ≠ "") (hsup : ct ∈ supported_types)
    (hmagic : ∀ dt, detectType f.headBytes = some dt → dt = ct ∨ dt ∈ supported_types)
    (hpos : ∀ c ∈ f.chunks, 0 < c)
    (hbig : max_size < f.chunks.sum) :
    handle_file_upload supported_types max_size f = (.error 413, false) := by
  unfold handle_file_upload
  rw [hct]
  have h1 : ¬ (ct = "" ∨ ct ∉ supported_types) := by
    push_neg
    exact ⟨hne, hsup⟩
  have hw : writeLoop max_size 0 f.chunks = .error 413 :=
    writeLoop_exceeds _ _ 0 hpos (Nat.zero_le _) (by omega)
  rcases hd : detectType f.headBytes with _ | dt
  · simp only [if_neg h1, streamToDisk, hw]
  · have h2 : ¬ (dt ≠ ct ∧ dt ∉ supported_types) := by
      rcases hmagic dt hd with h | h
      · exact fun hx => hx.1 h
      · exact fun hx => hx.2 h
    simp only [if_neg h1, if_neg h2, streamToDisk, hw]

/-- A sample oversized JPEG upload for the C6 witness: declared and sniffed
type `image/jpeg`, streamed in two 8-byte chunks against a 10-byte limit. -/
def oversizedFile : UFile :=
  { content_type := some "image/jpeg"
    headBytes := [0xff, 0xd8, 0xff, 0xe0]
    chunks := [8, 8] }

/-- Witness for C6 at a concrete oversized upload. -/
theorem handle_file_upload_size_exceeded_witness :
    handle_file_upload ["image/jpeg", "image/png"] 10 oversizedFile =
      (.error 413, false) :=
  handle_file_upload_size_exceeded ["image/jpeg", "image/png"] 10 oversizedFile
    "image/jpeg" rfl (by decide) (by decide)
    (by simp [detectType, oversizedFile, List.isPrefixOf]) (by decide) (by decide)

/-- Python `s.startswith(p)`, computed over the character lists so that it
evaluates by kernel reduction. -/
def pyStartsWith (p s : String) : Bool :=
  List.isPrefixOf p.data s.data

/-- Python `x or d` for a string with a default. -/
def pyOrStr (o : Option String) (d : String) : String :=
  match o with
  | none => d
  | some s => if s = "" then d else s

/-- An image submitted to `recognize_and_create_item`: its declared content
type and the outcome `handle_file_upload` would produce for it.  That helper
raises only `HTTPException`s (carried as status codes) and leaves no partial
file behind on failure, so a failed upload does not touch storage. -/
structure RImg where
  contentType : Option String
  uploadOutcome : Except Nat String
deriving Repr

/-- The orchestrator's per-image MIME check:
`image_file.content_type and image_file.content_type.startswith("image/")`. -/
def mimeOk (img : RImg) : Bool :=
  match img.contentType with
  | none => false
  | some ct => pyStartsWith "image/" ct

/-- The persistent state the orchestrator touches: stored file names and the
names of created items. -/
structure OrchState where
  storage : List String
  items : List String
deriving Repr, DecidableEq

/-- An HTTP error surfaced by the orchestrator (`HTTPException` status). -/
inductive OErr where
  | http (code : Nat)
deriving Repr, DecidableEq

/-- The successful response of the orchestrator: created item name,
aggregated recognition result, and the image count. -/
structure OrchResponse where
  itemName : String
  recognition : RecognitionResult
  imagesCount : Nat
deriving Repr

/-- The stored names produced by the images that upload successfully. -/
def uploadNames (imgs : List RImg) : List String :=
  imgs.filterMap (fun i => i.uploadOutcome.toOption)

/-- Step 1 of `recognize_and_create_item`: for each image check the MIME
family (HTTP 400 naming the offending index otherwise), then upload,
accumulating stored names; an `HTTPException` aborts immediately, keeping
every file already stored (`except HTTPException: raise` performs no
cleanup). -/
def uploadPhase : List RImg → List String → List String →
    Except (Nat × List String) (List String × List String)
  | [], acc, storage => .ok (acc, storage)
  | img :: rest, acc, storage =>
    if mimeOk img then
      match img.uploadOutcome with
      | .ok name => uploadPhase rest (acc ++ [name]) (storage ++ [name])
      | .error code => .error (code, storage)
    else .error (400, storage)

/-- `recognize_and_create_item` from `item_recognition.py`: validate
(disabled → 503, no images → 400, more than 10 → 400), upload, recognize,
create the item, link the images and respond; any non-`HTTPException` after
the upload phase triggers best-effort deletion of every uploaded file and is
surfaced as HTTP 500, while an `HTTPException` is re-raised unchanged.  The
recognition step (`recognize_clothing_from_multiple_images`) raises only
`ValueError`-style errors, modelled by the `String` error of `recOutcome`. -/
def recognize_and_create_item (recognitionEnabled : Bool) (imgs : List RImg)
    (recOutcome : Except String RecognitionResult) (st : OrchState) :
    Except OErr OrchResponse × OrchState :=
  if recognitionEnabled = false then (.error (.http 503), st)
  else if imgs.length = 0 then (.error (.http 400), st)
  else if 10 < imgs.length then (.error (.http 400), st)
  else
    match uploadPhase imgs [] st.storage with
    | .error (code, storage') => (.error (.http code), { st with storage := storage' })
    | .ok (uploaded, storage') =>
      match recOutcome with
      | .error _ =>
        (.error (.http 500),
          { st with storage := uploaded.foldl (fun s n => s.erase n) storage' })
      | .ok res =>
        let itemName := pyOrStr res.name "Распознанный предмет"
        (.ok { itemName := itemName, recognition := res, imagesCount := uploaded.length },
          { storage := storage', items := st.items ++ [itemName] })

theorem uploadPhase_cons_ok {img : RImg} {rest : List RImg}
    {acc storage : List String} {name : String}
    (hm : mimeOk img = true) (hname : img.uploadOutcome = .ok name) :
    uploadPhase (img :: rest) acc storage =
      uploadPhase rest (acc ++ [name]) (storage ++ [name]) := by
  conv_lhs => unfold uploadPhase
  rw [if_pos hm, hname]

theorem uploadPhase_cons_bad {img : RImg} {rest : List RImg}
    {acc storage : List String} (hm : mimeOk img = false) :
    uploadPhase (img :: rest) acc storage = .error (400, storage) := by
  unfold uploadPhase
  rw [if_neg (by simp [hm])]

theorem uploadNames_cons_ok {img : RImg} {rest : List RImg} {name : String}
    (hname : img.uploadOutcome = .ok name) :
    uploadNames (img :: rest) = name :: uploadNames rest := by
  simp [uploadNames, hname, Except.toOption]

theorem uploadPhase_ok (imgs : List RImg)
    (hok : ∀ i ∈ imgs, mimeOk i = true ∧ i.uploadOutcome.isOk = true) :
    ∀ acc storage, uploadPhase imgs acc storage =
      .ok (acc ++ uploadNames imgs, storage ++ uploadNames imgs) := by
  induction imgs with
  | nil =>
    intro acc storage
    simp [uploadPhase, uploadNames]
  | cons img rest ih =>
    intro acc storage
    obtain ⟨hm, hu⟩ := hok img (List.mem_cons_self _ _)
    rcases hname : img.uploadOutcome with code | name
    · rw [hname] at hu
      simp [Except.isOk, Except.toBool] at hu
    · rw [uploadPhase_cons_ok hm hname,
        ih (fun i hi => hok i (List.mem_cons.mpr (Or.inr hi))) (acc ++ [name])
          (storage ++ [name]), uploadNames_cons_ok hname]
      simp

theorem uploadPhase_stops (pre : List RImg) (bad : RImg) (rest : List RImg)
    (hok : ∀ i ∈ pre, mimeOk i = true ∧ i.uploadOutcome.isOk = true)
    (hbad : mimeOk bad = false) :
    ∀ acc storage, uploadPhase (pre ++ bad :: rest) acc storage =
      .error (400, storage ++ uploadNames pre) := by
  induction pre with
  | nil =>
    intro acc storage
    have h1 : uploadPhase (bad :: rest) acc storage = .error (400, storage) :=
      uploadPhase_cons_bad hbad
    simpa [uploadNames] using h1
  | cons img pres ih =>
    intro acc storage
    obtain ⟨hm, hu⟩ := hok img (List.mem_cons_self _ _)
    rcases hname : img.uploadOutcome with code | name
    · rw [hname] at hu
      simp [Except.isOk, Except.toBool] at hu
    · have hstep : uploadPhase ((img :: pres) ++ bad :: rest) acc storage =
          uploadPhase (pres ++ bad :: rest) (acc ++ [name]) (storage ++ [name]) :=
        uploadPhase_cons_ok hm hname
      rw [hstep, ih (fun i hi => hok i (List.mem_cons.mpr (Or.inr hi))) (acc ++ [name])
        (storage ++ [name]), uploadNames_cons_ok hname]
      simp

theorem foldl_erase_append (names : List String) :
    ∀ s : List String, names.Nodup → (∀ n ∈ names, n ∉ s) →
      names.foldl (fun acc n => acc.erase n) (s ++ names) = s := by
  induction names with
  | nil =>
    intro s _ _
    simp
  | cons n ns ih =>
    intro s hnodup hfresh
    simp only [List.foldl_cons]
    have h1 : (s ++ n :: ns).erase n = s ++ ns := by
      rw [List.erase_append_right _ (hfresh n (List.mem_cons_self _ _))]
      rw [List.erase_cons_head]
    rw [h1]
    exact ih s (List.nodup_cons.mp hnodup).2
      (fun m hm => hfresh m (List.mem_cons.mpr (Or.inr hm)))

/-- C2: when every image passes the MIME check and uploads successfully and
the recognition step then raises, the orchestrator deletes every uploaded
file, creates no item (the state is restored exactly), and surfaces the
failure as HTTP 500; the recognition step raises only non-HTTP errors, so
the re-raise-unchanged branch for client-facing validation errors is not
taken on this path. -/
theorem recognize_and_create_recognition_failure
    (imgs : List RImg) (msg : String) (st : OrchState)
    (hne : imgs ≠ []) (hlen : imgs.length ≤ 10)
    (hok : ∀ i ∈ imgs, mimeOk i = true ∧ i.uploadOutcome.isOk = true)
    (hnodup : (uploadNames imgs).Nodup)
    (hfresh : ∀ n ∈ uploadNames imgs, n ∉ st.storage) :
    recognize_and_create_item true imgs (.error msg) st =
      (.error (.http 500), st) := by
  unfold recognize_and_create_item
  rw [if_neg (by simp), if_neg (by simpa [List.length_eq_zero] using hne),
    if_neg (by omega), uploadPhase_ok imgs hok [] st.storage]
  have hclean : (uploadNames imgs).foldl (fun s n => s.erase n)
      (st.storage ++ uploadNames imgs) = st.storage :=
    foldl_erase_append (uploadNames imgs) st.storage hnodup hfresh
  simp [hclean]

/-- Sample images and state used by the orchestrator witnesses. -/
def imgJ : RImg := { contentType := some "image/jpeg", uploadOutcome := .ok "a1.jpg" }

/-- A second sample image. -/
def imgP : RImg := { contentType := some "image/png", uploadOutcome := .ok "b2.png" }

/-- A third sample image. -/
def imgW : RImg := { contentType := some "image/webp", uploadOutcome := .ok "c3.webp" }

/-- A sample image that fails the MIME-family check. -/
def imgBad : RImg := { contentType := some "text/plain", uploadOutcome := .ok "d4.txt" }

/-- A sample initial state with one stored file and one existing item. -/
def stW : OrchState := { storage := ["old.jpg"], items := ["prior"] }

/-- Witness for C2: three images upload, then recognition fails; the state
is restored and the call reports HTTP 500. -/
theorem recognize_and_create_recognition_failure_witness :
    recognize_and_create_item true [imgJ, imgP, imgW] (.error "recognition failed") stW =
      (.error (.http 500), stW) :=
  recognize_and_create_recognition_failure [imgJ, imgP, imgW] "recognition failed" stW
    (by simp) (by decide) (by decide) (by decide) (by decide)

/-- C4: the validation checks precede any upload: with recognition disabled
the call fails HTTP 503, with zero images HTTP 400, with more than ten
images HTTP 400, and in each case the state (stored files and items) is
unchanged, so no file was uploaded and no item created. -/
theorem recognize_and_create_validation
    (imgs : List RImg) (recOutcome : Except String RecognitionResult)
    (st : OrchState) :
    (recognize_and_create_item false imgs recOutcome st = (.error (.http 503), st)) ∧
    (imgs = [] →
      recognize_and_create_item true imgs recOutcome st = (.error (.http 400), st)) ∧
    (10 < imgs.length →
      recognize_and_create_item true imgs recOutcome st = (.error (.http 400), st)) := by
  refine ⟨?_, ?_, ?_⟩
  · unfold recognize_and_create_item
    rw [if_pos rfl]
  · intro h
    unfold recognize_and_create_item
    rw [if_neg (by simp), if_pos (by simp [h])]
  · intro h
    unfold recognize_and_create_item
    rw [if_neg (by simp), if_neg (by omega), if_pos h]

/-- Witness for C4: a disabled call, an empty-image call and an
eleven-image call, each leaving the state unchanged. -/
theorem recognize_and_create_validation_witness :
    (recognize_and_create_item false [imgJ] (.error "e") stW =
      (.error (.http 503), stW)) ∧
    (recognize_and_create_item true [] (.error "e") stW =
      (.error (.http 400), stW)) ∧
    (recognize_and_create_item true
        [imgJ, imgJ, imgJ, imgJ, imgJ, imgJ, imgJ, imgJ, imgJ, imgJ, imgJ]
        (.error "e") stW = (.error (.http 400), stW)) :=
  ⟨(recognize_and_create_validation [imgJ] (.error "e") stW).1,
   (recognize_and_create_validation [] (.error "e") stW).2.1 rfl,
   (recognize_and_create_validation
      [imgJ, imgJ, imgJ, imgJ, imgJ, imgJ, imgJ, imgJ, imgJ, imgJ, imgJ]
      (.error "e") stW).2.2 (by decide)⟩

/-- C10: when the MIME check fails at an index i > 0, after the first i
images were already stored, the HTTP 400 is re-raised unchanged (`except
HTTPException: raise` precedes the compensation branch), so the i
already-uploaded files all remain on storage and no item is created. -/
theorem recognize_and_create_mime_failure_keeps_uploads
    (pre : List RImg) (bad : RImg) (rest : List RImg)
    (recOutcome : Except String RecognitionResult) (st : OrchState)
    (hpre : pre ≠ [])
    (hok : ∀ i ∈ pre, mimeOk i = true ∧ i.uploadOutcome.isOk = true)
    (hbad : mimeOk bad = false)
    (hlen : (pre ++ bad :: rest).length ≤ 10) :
    recognize_and_create_item true (pre ++ bad :: rest) recOutcome st =
      (.error (.http 400), { st with storage := st.storage ++ uploadNames pre }) := by
  unfold recognize_and_create_item
  rw [if_neg (by simp), if_neg (by simp), if_neg (by omega),
    uploadPhase_stops pre bad rest hok hbad [] st.storage]

/-- Witness for C10: one good upload followed by a non-image file; the first
file stays on storage and the call reports HTTP 400. -/
theorem recognize_and_create_mime_failure_keeps_uploads_witness :
    recognize_and_create_item true [imgJ, imgBad, imgP] (.error "e") stW =
      (.error (.http 400),
        { stW with storage := stW.storage ++ uploadNames [imgJ] }) :=
  recognize_and_create_mime_failure_keeps_uploads [imgJ] imgBad [imgP]
    (.error "e") stW (by simp) (by decide) (by decide) (by decide)

/-- A persisted `ItemImage` row (`models/item.py`): identity, owning item,
primary flag and the soft-delete flag `is_active`.  Identities are modelled
as the insertion index, which the operations below keep fresh and unique. -/
structure ImgRow where
  id : Nat
  item_id : Nat
  is_primary : Bool
  is_active : Bool
deriving Repr, DecidableEq

/-- `UPDATE item_images SET is_primary=false WHERE item_id == iid` — the
clear step used by `create_item_image` and by `ItemImageCRUD.set_primary`
(the source applies it to all rows of the item, with no `is_active`
filter). -/
def clearAll (iid : Nat) (rows : List ImgRow) : List ImgRow :=
  rows.map (fun r => if r.item_id = iid then { r with is_primary := false } else r)

/-- The clear step of `update_item_image`: same update, but excluding the
target image id. -/
def clearOthers (iid xid : Nat) (rows : List ImgRow) : List ImgRow :=
  rows.map (fun r =>
    if r.item_id = iid ∧ r.id ≠ xid then { r with is_primary := false } else r)

/-- Writing the primary flag onto the fetched ORM object of the given id. -/
def setPrimaryFlag (xid : Nat) (v : Bool) (rows : List ImgRow) : List ImgRow :=
  rows.map (fun r => if r.id = xid then { r with is_primary := v } else r)

/-- `CRUDBase.get`: the active row with the given id. -/
def getRow (xid : Nat) (rows : List ImgRow) : Option ImgRow :=
  rows.find? (fun r => r.id == xid && r.is_active)

/-- `ItemImageCRUD.count_by_item_id`: the number of active images of an
item. -/
def countByItem (iid : Nat) (rows : List ImgRow) : Nat :=
  (rows.filter (fun r => r.item_id == iid && r.is_active)).length

/-- The active-primary predicate of the invariant. -/
def primP (iid : Nat) (r : ImgRow) : Bool :=
  r.item_id == iid && r.is_active && r.is_primary

/-- The number of active images of an item flagged primary. -/
def primCount (iid : Nat) (rows : List ImgRow) : Nat :=
  (rows.filter (primP iid)).length

/-- `create_item_image` from `item_image.py`: default the requested flag to
"this is the first image" (`images_count == 0`), clear the item's other
flags when creating a primary image, then insert the new row. -/
def applyCreate (iid : Nat) (isPrimary : Option Bool) (rows : List ImgRow) :
    List ImgRow :=
  (if isPrimary.getD (countByItem iid rows == 0) then clearAll iid rows else rows) ++
    [{ id := rows.length, item_id := iid,
       is_primary := isPrimary.getD (countByItem iid rows == 0), is_active := true }]

/-- `update_item_image`: fetch the row (404 otherwise, modelled as a no-op);
when `is_primary=True` is requested, clear the flag on the item's other
images; then write the requested (or unchanged) flag onto the row. -/
def applyUpdate (xid : Nat) (isPrimary : Option Bool) (rows : List ImgRow) :
    List ImgRow :=
  match getRow xid rows with
  | none => rows
  | some r =>
    setPrimaryFlag xid (isPrimary.getD r.is_primary)
      (if isPrimary = some true then clearOthers r.item_id xid rows else rows)

/-- The `set-primary` endpoint plus `ItemImageCRUD.set_primary`: fetch the
row (404 otherwise), clear every flag of its item, set the target's flag. -/
def applySetPrimary (xid : Nat) (rows : List ImgRow) : List ImgRow :=
  match getRow xid rows with
  | none => rows
  | some r => setPrimaryFlag xid true (clearAll r.item_id rows)

/-- `delete_item_image`: soft-delete the fetched row. -/
def applyDel (xid : Nat) (rows : List ImgRow) : List ImgRow :=
  match getRow xid rows with
  | none => rows
  | some _ =>
    rows.map (fun r => if r.id = xid then { r with is_active := false } else r)

/-- The non-primary remainder of the orchestrator's link-images loop. -/
def linkRest (iid : Nat) : Nat → List ImgRow → List ImgRow
  | 0, rows => rows
  | m + 1, rows =>
    linkRest iid m
      (rows ++ [{ id := rows.length, item_id := iid,
                  is_primary := false, is_active := true }])

/-- The orchestrator's link-images phase (`item_recognition.py`, step 4):
the first image is forced primary after a defensive clear of the item's
flags; the remaining images are created non-primary. -/
def applyLink (iid : Nat) (n : Nat) (rows : List ImgRow) : List ImgRow :=
  match n with
  | 0 => rows
  | m + 1 =>
    linkRest iid m
      (clearAll iid rows ++
        [{ id := rows.length, item_id := iid, is_primary := true, is_active := true }])

/-- One committed image operation. -/
inductive ImgOp where
  | create (iid : Nat) (isPrimary : Option Bool)
  | update (xid : Nat) (isPrimary : Option Bool)
  | setPrimary (xid : Nat)
  | del (xid : Nat)
  | link (iid : Nat) (n : Nat)
deriving Repr, DecidableEq

/-- Applying one image operation to the committed rows. -/
def applyOp (rows : List ImgRow) : ImgOp → List ImgRow
  | .create iid p => applyCreate iid p rows
  | .update xid p => applyUpdate xid p rows
  | .setPrimary xid => applySetPrimary xid rows
  | .del xid => applyDel xid rows
  | .link iid n => applyLink iid n rows

/-- Applying a sequence of image operations. -/
def applyOps (rows : List ImgRow) (ops : List ImgOp) : List ImgRow :=
  ops.foldl applyOp rows

/-- Well-formedness of the committed rows: every id is below the row count
(so insertion indices are fresh), ids are pairwise distinct, and every item
has at most one active primary image. -/
def Inv (rows : List ImgRow) : Prop :=
  (∀ r ∈ rows, r.id < rows.length) ∧ (rows.map ImgRow.id).Nodup ∧
    ∀ iid, primCount iid rows ≤ 1

theorem filter_map_length_le (f : ImgRow → ImgRow) (p q : ImgRow → Bool)
    (rows : List ImgRow) (h : ∀ r ∈ rows, p (f r) = true → q r = true) :
    ((rows.map f).filter p).length ≤ (rows.filter q).length := by
  induction rows with
  | nil => simp
  | cons r rs ih =>
    have htail := ih (fun x hx hpx => h x (List.mem_cons.mpr (Or.inr hx)) hpx)
    simp only [List.map_cons, List.filter_cons]
    by_cases hp : p (f r) = true
    · rw [if_pos hp, if_pos (h r (List.mem_cons_self _ _) hp)]
      simpa using htail
    · rw [if_neg hp]
      split
      · exact le_trans htail (by simp)
      · exact htail

theorem filter_map_length_eq (f : ImgRow → ImgRow) (p : ImgRow → Bool)
    (rows : List ImgRow) (h : ∀ r ∈ rows, p (f r) = p r) :
    ((rows.map f).filter p).length = (rows.filter p).length := by
  induction rows with
  | nil => simp
  | cons r rs ih =>
    have htail := ih (fun x hx => h x (List.mem_cons.mpr (Or.inr hx)))
    simp only [List.map_cons, List.filter_cons, h r (List.mem_cons_self _ _)]
    split
    · simpa using htail
    · exact htail

theorem primCount_append (j : Nat) (rows : List ImgRow) (r : ImgRow) :
    primCount j (rows ++ [r]) =
      primCount j rows + (if primP j r = true then 1 else 0) := by
  unfold primCount
  rw [List.filter_append, List.length_append]
  congr 1
  simp only [List.filter_cons, List.filter_nil]
  split
  · rfl
  · rfl

theorem primCount_clearAll_self (iid : Nat) (rows : List ImgRow) :
    primCount iid (clearAll iid rows) = 0 := by
  unfold primCount clearAll
  rw [List.length_eq_zero, List.filter_eq_nil]
  intro r' hr'
  obtain ⟨q, hq, rfl⟩ := List.mem_map.mp hr'
  by_cases hqi : q.item_id = iid
  · simp [primP, hqi]
  · simp [primP, hqi]

theorem primCount_clearAll_other {j iid : Nat} (hj : j ≠ iid)
    (rows : List ImgRow) :
    primCount j (clearAll iid rows) = primCount j rows := by
  unfold primCount clearAll
  apply filter_map_length_eq
  intro r _
  by_cases hqi : r.item_id = iid
  · have hne : ¬ (iid = j) := fun he => hj he.symm
    simp [primP, hqi, hne]
  · simp [primP, hqi]

theorem count_id_le_one (rows : List ImgRow) (xid : Nat)
    (hnd : (rows.map ImgRow.id).Nodup) :
    (rows.filter (fun r => r.id == xid)).length ≤ 1 := by
  induction rows with
  | nil => simp
  | cons r rs ih =>
    simp only [List.map_cons, List.nodup_cons] at hnd
    obtain ⟨hnotin, hnd2⟩ := hnd
    simp only [List.filter_cons]
    by_cases h : (r.id == xid) = true
    · rw [if_pos h]
      have hrid : r.id = xid := by simpa using h
      have hempty : rs.filter (fun r => r.id == xid) = [] := by
        rw [List.filter_eq_nil]
        intro q hq hbad
        have hqid : q.id = xid := by simpa using hbad
        exact hnotin (hrid ▸ hqid ▸ List.mem_map_of_mem ImgRow.id hq)
      simp [hempty]
    · rw [if_neg h]
      exact ih hnd2

theorem eq_of_id_eq {rows : List ImgRow} (hnd : (rows.map ImgRow.id).Nodup)
    {q r : ImgRow} (hq : q ∈ rows) (hr : r ∈ rows) (h : q.id = r.id) : q = r :=
  List.inj_on_of_nodup_map hnd hq hr h

theorem getRow_some {xid : Nat} {rows : List ImgRow} {r : ImgRow}
    (h : getRow xid rows = some r) :
    r ∈ rows ∧ r.id = xid ∧ r.is_active = true := by
  unfold getRow at h
  have h1 := List.mem_of_find?_eq_some h
  have h2 := List.find?_some h
  simp only [Bool.and_eq_true, beq_iff_eq] at h2
  exact ⟨h1, h2.1, h2.2⟩

theorem primCount_map_le (f : ImgRow → ImgRow) (rows : List ImgRow)
    (hcnt : ∀ j, primCount j rows ≤ 1)
    (h : ∀ q ∈ rows, ∀ j, primP j (f q) = true → primP j q = true) :
    ∀ j, primCount j (rows.map f) ≤ 1 := fun j =>
  le_trans (filter_map_length_le f (primP j) (primP j) rows (fun q hq => h q hq j))
    (hcnt j)

theorem primCount_clear_set_le (rows : List ImgRow) (iid xid : Nat) (r : ImgRow)
    (hnd : (rows.map ImgRow.id).Nodup)
    (hcnt : ∀ j, primCount j rows ≤ 1)
    (hr : r ∈ rows) (hrid : r.id = xid) (hritem : r.item_id = iid)
    (g : ImgRow → ImgRow)
    (hg1 : ∀ q, (g q).id = q.id ∧ (g q).item_id = q.item_id ∧
      (g q).is_active = q.is_active)
    (hg2 : ∀ q, q.id ≠ xid → q.item_id = iid → (g q).is_primary = false)
    (hg3 : ∀ q, q.id ≠ xid → q.item_id ≠ iid → g q = q) :
    ∀ j, primCount j (rows.map g) ≤ 1 := by
  intro j
  by_cases hj : j = iid
  · rw [hj]
    refine le_trans
      (filter_map_length_le g (primP iid) (fun q => q.id == xid) rows ?_)
      (count_id_le_one rows xid hnd)
    intro q hq hp
    by_cases hqid : q.id = xid
    · simp [hqid]
    · by_cases hqi : q.item_id = iid
      · have hfalse := hg2 q hqid hqi
        simp [primP, hfalse] at hp
      · rw [hg3 q hqid hqi] at hp
        simp [primP, hqi] at hp
  · refine le_trans
      (filter_map_length_le g (primP j) (primP j) rows ?_) (hcnt j)
    intro q hq hp
    by_cases hqid : q.id = xid
    · have hq_eq : q = r := eq_of_id_eq hnd hq hr (by rw [hqid, hrid])
      have hitem : (g q).item_id = iid := by rw [(hg1 q).2.1, hq_eq, hritem]
      have hne : ¬ (iid = j) := fun he => hj he.symm
      simp [primP, hitem, hne] at hp
    · by_cases hqi : q.item_id = iid
      · have hfalse := hg2 q hqid hqi
        simp [primP, hfalse] at hp
      · rw [hg3 q hqid hqi] at hp
        exact hp

theorem ids_map (f : ImgRow → ImgRow) (hid : ∀ r, (f r).id = r.id)
    (rows : List ImgRow) :
    (rows.map f).map ImgRow.id = rows.map ImgRow.id := by
  induction rows with
  | nil => rfl
  | cons r rs ih => simp only [List.map_cons, hid r, ih]

theorem inv_ids_map (f : ImgRow → ImgRow) (hid : ∀ r, (f r).id = r.id)
    (rows : List ImgRow) (h1 : ∀ r ∈ rows, r.id < rows.length)
    (h2 : (rows.map ImgRow.id).Nodup) :
    (∀ r ∈ rows.map f, r.id < (rows.map f).length) ∧
      ((rows.map f).map ImgRow.id).Nodup := by
  constructor
  · intro r' hr'
    obtain ⟨q, hq, rfl⟩ := List.mem_map.mp hr'
    rw [List.length_map, hid q]
    exact h1 q hq
  · rw [ids_map f hid rows]
    exact h2

theorem inv_ids_snoc (rows : List ImgRow) (new : ImgRow)
    (h1 : ∀ r ∈ rows, r.id < rows.length) (h2 : (rows.map ImgRow.id).Nodup)
    (hnew : new.id = rows.length) :
    (∀ r ∈ rows ++ [new], r.id < (rows ++ [new]).length) ∧
      ((rows ++ [new]).map ImgRow.id).Nodup := by
  constructor
  · intro r hr
    rw [List.length_append]
    rcases List.mem_append.mp hr with h | h
    · exact lt_trans (h1 r h) (by simp)
    · simp only [List.mem_singleton] at h
      subst h
      simp [hnew]
  · rw [List.map_append, List.nodup_append]
    refine ⟨h2, by simp, ?_⟩
    intro a ha hb
    simp only [List.map_cons, List.map_nil, List.mem_singleton] at hb
    obtain ⟨q, hq, rfl⟩ := List.mem_map.mp ha
    have := h1 q hq
    rw [hb, hnew] at this
    exact lt_irrefl _ this

theorem inv_ids_clearAll (iid : Nat) (rows : List ImgRow)
    (h1 : ∀ r ∈ rows, r.id < rows.length) (h2 : (rows.map ImgRow.id).Nodup) :
    (∀ r ∈ clearAll iid rows, r.id < (clearAll iid rows).length) ∧
      ((clearAll iid rows).map ImgRow.id).Nodup :=
  inv_ids_map _ (fun q => by by_cases hc : q.item_id = iid <;> simp [hc]) rows h1 h2

theorem inv_create (iid : Nat) (isPrimary : Option Bool) (rows : List ImgRow)
    (h : Inv rows) : Inv (applyCreate iid isPrimary rows) := by
  obtain ⟨h1, h2, h3⟩ := h
  unfold applyCreate
  by_cases hb : isPrimary.getD (countByItem iid rows == 0) = true
  · rw [if_pos hb, hb]
    obtain ⟨m1, m2⟩ := inv_ids_clearAll iid rows h1 h2
    have hlen : (clearAll iid rows).length = rows.length := List.length_map _ _
    obtain ⟨s1, s2⟩ := inv_ids_snoc (clearAll iid rows)
      { id := rows.length, item_id := iid, is_primary := true, is_active := true }
      m1 m2 (by rw [hlen])
    refine ⟨s1, s2, ?_⟩
    intro j
    rw [primCount_append]
    by_cases hj : j = iid
    · rw [hj, primCount_clearAll_self]
      simp [primP]
    · have hj' : ¬ (iid = j) := fun he => hj he.symm
      rw [primCount_clearAll_other hj]
      simp only [primP]
      simp [hj']
      exact h3 j
  · rw [if_neg hb]
    rw [Bool.not_eq_true] at hb
    rw [hb]
    obtain ⟨s1, s2⟩ := inv_ids_snoc rows
      { id := rows.length, item_id := iid, is_primary := false, is_active := true }
      h1 h2 rfl
    refine ⟨s1, s2, ?_⟩
    intro j
    rw [primCount_append]
    simp only [primP]
    simp
    exact h3 j

theorem inv_update (xid : Nat) (isPrimary : Option Bool) (rows : List ImgRow)
    (h : Inv rows) : Inv (applyUpdate xid isPrimary rows) := by
  obtain ⟨h1, h2, h3⟩ := h
  unfold applyUpdate
  rcases hg : getRow xid rows with _ | r
  · exact ⟨h1, h2, h3⟩
  · obtain ⟨hrmem, hrid, hract⟩ := getRow_some hg
    show Inv (setPrimaryFlag xid (isPrimary.getD r.is_primary)
      (if isPrimary = some true then clearOthers r.item_id xid rows else rows))
    by_cases hpt : isPrimary = some true
    · rw [if_pos hpt]
      have hv : isPrimary.getD r.is_primary = true := by rw [hpt]; rfl
      rw [hv]
      have hcomp : setPrimaryFlag xid true (clearOthers r.item_id xid rows) =
          rows.map (fun q =>
            (fun x : ImgRow => if x.id = xid then { x with is_primary := true } else x)
              (if q.item_id = r.item_id ∧ q.id ≠ xid then { q with is_primary := false }
               else q)) := by
        unfold setPrimaryFlag clearOthers
        rw [List.map_map]
        rfl
      rw [hcomp]
      have hg1 : ∀ q : ImgRow,
          ((fun q : ImgRow =>
            (fun x : ImgRow => if x.id = xid then { x with is_primary := true } else x)
              (if q.item_id = r.item_id ∧ q.id ≠ xid then { q with is_primary := false }
               else q)) q).id = q.id ∧
          ((fun q : ImgRow =>
            (fun x : ImgRow => if x.id = xid then { x with is_primary := true } else x)
              (if q.item_id = r.item_id ∧ q.id ≠ xid then { q with is_primary := false }
               else q)) q).item_id = q.item_id ∧
          ((fun q : ImgRow =>
            (fun x : ImgRow => if x.id = xid then { x with is_primary := true } else x)
              (if q.item_id = r.item_id ∧ q.id ≠ xid then { q with is_primary := false }
               else q)) q).is_active = q.is_active := by
        rintro ⟨qid, qitem, qprim, qact⟩
        by_cases hc : qitem = r.item_id ∧ qid ≠ xid <;>
          by_cases hs : qid = xid <;>
          simp_all
      have hg2 : ∀ q : ImgRow, q.id ≠ xid → q.item_id = r.item_id →
          ((fun q : ImgRow =>
            (fun x : ImgRow => if x.id = xid then { x with is_primary := true } else x)
              (if q.item_id = r.item_id ∧ q.id ≠ xid then { q with is_primary := false }
               else q)) q).is_primary = false := by
        rintro ⟨qid, qitem, qprim, qact⟩ hqid hqit
        simp_all
      have hg3 : ∀ q : ImgRow, q.id ≠ xid → q.item_id ≠ r.item_id →
          (fun q : ImgRow =>
            (fun x : ImgRow => if x.id = xid then { x with is_primary := true } else x)
              (if q.item_id = r.item_id ∧ q.id ≠ xid then { q with is_primary := false }
               else q)) q = q := by
        rintro ⟨qid, qitem, qprim, qact⟩ hqid hqit
        simp_all
      obtain ⟨m1, m2⟩ := inv_ids_map _ (fun q => (hg1 q).1) rows h1 h2
      exact ⟨m1, m2,
        primCount_clear_set_le rows r.item_id xid r h2 h3 hrmem hrid rfl _ hg1 hg2 hg3⟩
    · rw [if_neg hpt]
      unfold setPrimaryFlag
      have hid : ∀ q : ImgRow,
          ((fun q : ImgRow =>
            if q.id = xid then { q with is_primary := isPrimary.getD r.is_primary }
            else q) q).id = q.id := by
        intro q
        by_cases hs : q.id = xid <;> simp [hs]
      obtain ⟨m1, m2⟩ := inv_ids_map _ hid rows h1 h2
      refine ⟨m1, m2, primCount_map_le _ rows h3 ?_⟩
      intro q hq j hp
      by_cases hqid : q.id = xid
      · have hq_eq : q = r := eq_of_id_eq h2 hq hrmem (by rw [hqid, hrid])
        have hv : isPrimary.getD r.is_primary = false ∨
            isPrimary.getD r.is_primary = r.is_primary := by
          rcases isPrimary with _ | b
          · exact Or.inr rfl
          · cases b
            · exact Or.inl rfl
            · exact absurd rfl hpt
        rw [if_pos hqid] at hp
        rcases hv with hv | hv
        · rw [hv] at hp
          simp [primP] at hp
        · rw [hv, hq_eq] at hp
          rw [hq_eq]
          exact hp
      · simp only [if_neg hqid] at hp
        exact hp

theorem inv_setPrimary (xid : Nat) (rows : List ImgRow) (h : Inv rows) :
    Inv (applySetPrimary xid rows) := by
  obtain ⟨h1, h2, h3⟩ := h
  unfold applySetPrimary
  rcases hg : getRow xid rows with _ | r
  · exact ⟨h1, h2, h3⟩
  · obtain ⟨hrmem, hrid, hract⟩ := getRow_some hg
    show Inv (setPrimaryFlag xid true (clearAll r.item_id rows))
    have hcomp : setPrimaryFlag xid true (clearAll r.item_id rows) =
        rows.map (fun q =>
          (fun x : ImgRow => if x.id = xid then { x with is_primary := true } else x)
            (if q.item_id = r.item_id then { q with is_primary := false } else q)) := by
      unfold setPrimaryFlag clearAll
      rw [List.map_map]
      rfl
    rw [hcomp]
    have hg1 : ∀ q : ImgRow,
        ((fun q : ImgRow =>
          (fun x : ImgRow => if x.id = xid then { x with is_primary := true } else x)
            (if q.item_id = r.item_id then { q with is_primary := false } else q)) q).id
          = q.id ∧
        ((fun q : ImgRow =>
          (fun x : ImgRow => if x.id = xid then { x with is_primary := true } else x)
            (if q.item_id = r.item_id then { q with is_primary := false } else q))
          q).item_id = q.item_id ∧
        ((fun q : ImgRow =>
          (fun x : ImgRow => if x.id = xid then { x with is_primary := true } else x)
            (if q.item_id = r.item_id then { q with is_primary := false } else q))
          q).is_active = q.is_active := by
      rintro ⟨qid, qitem, qprim, qact⟩
      by_cases hc : qitem = r.item_id <;> by_cases hs : qid = xid <;> simp_all
    have hg2 : ∀ q : ImgRow, q.id ≠ xid → q.item_id = r.item_id →
        ((fun q : ImgRow =>
          (fun x : ImgRow => if x.id = xid then { x with is_primary := true } else x)
            (if q.item_id = r.item_id then { q with is_primary := false } else q))
          q).is_primary = false := by
      rintro ⟨qid, qitem, qprim, qact⟩ hqid hqit
      simp_all
    have hg3 : ∀ q : ImgRow, q.id ≠ xid → q.item_id ≠ r.item_id →
        (fun q : ImgRow =>
          (fun x : ImgRow => if x.id = xid then { x with is_primary := true } else x)
            (if q.item_id = r.item_id then { q with is_primary := false } else q)) q
          = q := by
      rintro ⟨qid, qitem, qprim, qact⟩ hqid hqit
      simp_all
    obtain ⟨m1, m2⟩ := inv_ids_map _ (fun q => (hg1 q).1) rows h1 h2
    exact ⟨m1, m2,
      primCount_clear_set_le rows r.item_id xid r h2 h3 hrmem hrid rfl _ hg1 hg2 hg3⟩

theorem inv_del (xid : Nat) (rows : List ImgRow) (h : Inv rows) :
    Inv (applyDel xid rows) := by
  obtain ⟨h1, h2, h3⟩ := h
  unfold applyDel
  rcases hg : getRow xid rows with _ | r
  · exact ⟨h1, h2, h3⟩
  · show Inv (rows.map (fun q => if q.id = xid then { q with is_active := false } else q))
    have hid : ∀ q : ImgRow,
        ((fun q : ImgRow => if q.id = xid then { q with is_active := false } else q)
          q).id = q.id := by
      intro q
      by_cases hs : q.id = xid <;> simp [hs]
    obtain ⟨m1, m2⟩ := inv_ids_map _ hid rows h1 h2
    refine ⟨m1, m2, primCount_map_le _ rows h3 ?_⟩
    intro q hq j hp
    by_cases hqid : q.id = xid
    · simp only [if_pos hqid] at hp
      simp [primP] at hp
    · simp only [if_neg hqid] at hp
      exact hp

theorem primCount_linkRest (iid m : Nat) :
    ∀ rows j, primCount j (linkRest iid m rows) = primCount j rows := by
  induction m with
  | zero =>
    intro rows j
    rfl
  | succ k ih =>
    intro rows j
    have hstep : linkRest iid (k + 1) rows =
        linkRest iid k (rows ++
          [{ id := rows.length, item_id := iid, is_primary := false,
             is_active := true }]) := rfl
    rw [hstep, ih, primCount_append]
    simp [primP]

theorem inv_ids_linkRest (iid m : Nat) :
    ∀ rows : List ImgRow, (∀ r ∈ rows, r.id < rows.length) →
      ((rows.map ImgRow.id).Nodup) →
      (∀ r ∈ linkRest iid m rows, r.id < (linkRest iid m rows).length) ∧
        ((linkRest iid m rows).map ImgRow.id).Nodup := by
  induction m with
  | zero =>
    intro rows ha hb
    exact ⟨ha, hb⟩
  | succ k ih =>
    intro rows ha hb
    have hstep : linkRest iid (k + 1) rows =
        linkRest iid k (rows ++
          [{ id := rows.length, item_id := iid, is_primary := false,
             is_active := true }]) := rfl
    rw [hstep]
    obtain ⟨s1, s2⟩ := inv_ids_snoc rows
      { id := rows.length, item_id := iid, is_primary := false, is_active := true }
      ha hb rfl
    exact ih _ s1 s2

theorem inv_link (iid n : Nat) (rows : List ImgRow) (h : Inv rows) :
    Inv (applyLink iid n rows) := by
  obtain ⟨h1, h2, h3⟩ := h
  cases n with
  | zero => exact ⟨h1, h2, h3⟩
  | succ m =>
    show Inv (linkRest iid m (clearAll iid rows ++
      [{ id := rows.length, item_id := iid, is_primary := true, is_active := true }]))
    obtain ⟨m1, m2⟩ := inv_ids_clearAll iid rows h1 h2
    have hlen : (clearAll iid rows).length = rows.length := List.length_map _ _
    obtain ⟨s1, s2⟩ := inv_ids_snoc (clearAll iid rows)
      { id := rows.length, item_id := iid, is_primary := true, is_active := true }
      m1 m2 (by rw [hlen])
    obtain ⟨t1, t2⟩ := inv_ids_linkRest iid m _ s1 s2
    refine ⟨t1, t2, ?_⟩
    intro j
    rw [primCount_linkRest, primCount_append]
    by_cases hj : j = iid
    · rw [hj, primCount_clearAll_self]
      simp [primP]
    · have hj' : ¬ (iid = j) := fun he => hj he.symm
      rw [primCount_clearAll_other hj]
      simp only [primP]
      simp [hj']
      exact h3 j

theorem inv_applyOp (rows : List ImgRow) (op : ImgOp) (h : Inv rows) :
    Inv (applyOp rows op) := by
  cases op with
  | create iid p => exact inv_create iid p rows h
  | update xid p => exact inv_update xid p rows h
  | setPrimary xid => exact inv_setPrimary xid rows h
  | del xid => exact inv_del xid rows h
  | link iid n => exact inv_link iid n rows h

theorem inv_applyOps (ops : List ImgOp) :
    ∀ rows : List ImgRow, Inv rows → Inv (applyOps rows ops) := by
  induction ops with
  | nil =>
    intro rows h
    exact h
  | cons op rest ih =>
    intro rows h
    exact ih (applyOp rows op) (inv_applyOp rows op h)

theorem inv_empty : Inv [] := by
  refine ⟨?_, ?_, ?_⟩
  · intro r hr
    simp at hr
  · simp
  · intro iid
    simp [primCount]

/-- C1: every state reachable from the empty table through the committed
image operations (create image, update image, set-primary, soft delete and
the orchestrator's link-images phase) has at most one active primary
`ItemImage` per item; in particular, after two creations for the same item
that each request `is_primary=true`, exactly one image is primary. -/
theorem primary_image_invariant :
    (∀ ops : List ImgOp, ∀ iid : Nat, primCount iid (applyOps [] ops) ≤ 1) ∧
    primCount 7 (applyOp (applyOp [] (.create 7 (some true)))
      (.create 7 (some true))) = 1 := by
  constructor
  · intro ops iid
    exact (inv_applyOps ops [] inv_empty).2.2 iid
  · decide

end SmartWardrobe
